import Mathlib

/-!
Verification of the tab-search popup logic of the `laricercadielisa` browser
extension.  The popup's `TabSearcher` class (popup.js, with an extended
variant of the same class shipped in build/README.md) filters an in-memory
list of tab records, highlights matches, and mutates host tab state.

This file gives a shallow embedding of that logic.  JavaScript strings are
modelled as Lean `String`s; the ASCII fragments of `toLowerCase`,
`toUpperCase` and `trim` are modelled character by character; the host
browser's asynchronous tab APIs are modelled by explicit outcome parameters
(`Bool` / `Except`); `RegExp`-based code is modelled on the fragment where
the constructed pattern is a literal (no regex syntax characters), with
queries outside that fragment mapped to `none` (the construction throws or
stops matching literally there).
-/

namespace TabSearch

/-! ### ASCII character primitives used by the popup code -/

/-- The apostrophe character (U+0027). -/
def apos : Char := Char.ofNat 39

/-- Whitespace as trimmed by `String.prototype.trim` (ASCII fragment:
space, tab, line feed, carriage return). -/
def jsWs (c : Char) : Bool :=
  c.toNat == 32 || c.toNat == 9 || c.toNat == 10 || c.toNat == 13

/-- JavaScript's `\w` word-character class `[A-Za-z0-9_]`, by code point. -/
def isWordChar (c : Char) : Bool :=
  decide (65 ≤ c.toNat ∧ c.toNat ≤ 90) ||
  decide (97 ≤ c.toNat ∧ c.toNat ≤ 122) ||
  decide (48 ≤ c.toNat ∧ c.toNat ≤ 57) ||
  c.toNat == 95

/-- `String.prototype.toLowerCase` on the ASCII fragment: lower every
character (Lean's `Char.toLower` maps exactly `A`-`Z` to `a`-`z`). -/
def jsToLower (s : String) : String := ⟨ s.data.map Char.toLower ⟩

/-- `String.prototype.toUpperCase` on the ASCII fragment. -/
def jsToUpper (s : String) : String := ⟨ s.data.map Char.toUpper ⟩

/-- Drop leading and trailing whitespace from a character list. -/
def trimL (l : List Char) : List Char :=
  ((l.dropWhile jsWs).reverse.dropWhile jsWs).reverse

/-- `String.prototype.trim` (ASCII fragment). -/
def jsTrim (s : String) : String := ⟨ trimL s.data ⟩

/-- Does `l` contain `pat` as a contiguous substring?  Models
`String.prototype.includes`. -/
def hasInfix (pat : List Char) : List Char → Bool
  | [] => pat.isPrefixOf ([] : List Char)
  | c :: t => pat.isPrefixOf (c :: t) || hasInfix pat t

/-- Case-insensitive (ASCII) prefix test: does `l` start with `pat`,
comparing characters after `Char.toLower` on both sides?  This is how a
regex built from a syntax-character-free pattern with flag `i` matches. -/
def ciIsPrefix : List Char → List Char → Bool
  | [], _ => true
  | _ :: _, [] => false
  | p :: ps, c :: cs => (p.toLower == c.toLower) && ciIsPrefix ps cs

/-! ### Character lemmas -/

theorem char_toNat_ofNat (n : Nat) (h : n < 55296) : (Char.ofNat n).toNat = n := by
  have hv : n.isValidChar := Or.inl h
  simp [Char.ofNat, hv, Char.ofNatAux, Char.toNat, UInt32.toNat]

theorem char_toLower_of_upper {c : Char} (h : 65 ≤ c.toNat ∧ c.toNat ≤ 90) :
    c.toLower = Char.ofNat (c.toNat + 32) := by
  simp [Char.toLower, h]

theorem char_toLower_of_not_upper {c : Char} (h : ¬ (65 ≤ c.toNat ∧ c.toNat ≤ 90)) :
    c.toLower = c := by
  simp [Char.toLower]
  intro h1 h2
  exact absurd ⟨h1, h2⟩ h

theorem char_toUpper_of_lower {c : Char} (h : 97 ≤ c.toNat ∧ c.toNat ≤ 122) :
    c.toUpper = Char.ofNat (c.toNat - 32) := by
  simp [Char.toUpper, h]

theorem char_toUpper_of_not_lower {c : Char} (h : ¬ (97 ≤ c.toNat ∧ c.toNat ≤ 122)) :
    c.toUpper = c := by
  simp [Char.toUpper]
  intro h1 h2
  exact absurd ⟨h1, h2⟩ h

/-- Lowering is idempotent. -/
theorem toLower_toLower (c : Char) : c.toLower.toLower = c.toLower := by
  by_cases h : 65 ≤ c.toNat ∧ c.toNat ≤ 90
  · have ht : (Char.ofNat (c.toNat + 32)).toNat = c.toNat + 32 :=
      char_toNat_ofNat _ (by omega)
    rw [char_toLower_of_upper h,
      @char_toLower_of_not_upper (Char.ofNat (c.toNat + 32)) (by rw [ht]; omega)]
  · simp [char_toLower_of_not_upper h]

/-- Lowering after uppering agrees with lowering. -/
theorem toLower_toUpper (c : Char) : c.toUpper.toLower = c.toLower := by
  by_cases h : 97 ≤ c.toNat ∧ c.toNat ≤ 122
  · have ht : (Char.ofNat (c.toNat - 32)).toNat = c.toNat - 32 :=
      char_toNat_ofNat _ (by omega)
    rw [char_toUpper_of_lower h,
      @char_toLower_of_upper (Char.ofNat (c.toNat - 32)) (by rw [ht]; omega), ht]
    have h3 : c.toNat - 32 + 32 = c.toNat := by omega
    rw [h3, Char.ofNat_toNat, char_toLower_of_not_upper (by omega)]
  · rw [char_toUpper_of_not_lower h]

/-- Lowering preserves being (non-)whitespace. -/
theorem jsWs_toLower (c : Char) : jsWs c.toLower = jsWs c := by
  by_cases h : 65 ≤ c.toNat ∧ c.toNat ≤ 90
  · have ht : (Char.ofNat (c.toNat + 32)).toNat = c.toNat + 32 :=
      char_toNat_ofNat _ (by omega)
    have hA : jsWs (Char.ofNat (c.toNat + 32)) = false := by
      simp [jsWs, ht]
      omega
    have hB : jsWs c = false := by
      simp [jsWs]
      omega
    rw [char_toLower_of_upper h, hA, hB]
  · rw [char_toLower_of_not_upper h]

/-- Lowering preserves word-character-ness. -/
theorem isWordChar_toLower (c : Char) : isWordChar c.toLower = isWordChar c := by
  by_cases h : 65 ≤ c.toNat ∧ c.toNat ≤ 90
  · have ht : (Char.ofNat (c.toNat + 32)).toNat = c.toNat + 32 :=
      char_toNat_ofNat _ (by omega)
    have hA : isWordChar (Char.ofNat (c.toNat + 32)) = true := by
      simp [isWordChar, ht]
      omega
    have hB : isWordChar c = true := by
      simp [isWordChar]
      omega
    rw [char_toLower_of_upper h, hA, hB]
  · rw [char_toLower_of_not_upper h]

/-! ### escapeHtml

Two implementations of `TabSearcher.escapeHtml` exist in the repository.
The variant shipped in build/README.md (lines 609-620) coerces a non-string
argument with `String(text)` and then applies five global single-character
replacements in order `&`, `<`, `>`, `"`, `'`; it is modelled here as
`escapeHtml`.  The popup.js variant (lines 203-207) instead assigns
`div.textContent = text` and reads back `div.innerHTML`; the browser's HTML
text-node serialization escapes only `&`, `<` and `>` and stringifies
`null` to the empty string, and is modelled as `escapeHtmlDom`. -/

/-- One global single-character replacement, as performed by
`text.replace(/c/g, r)` for a single literal character `c`. -/
def repChar (c : Char) (r : List Char) (l : List Char) : List Char :=
  l.flatMap (fun a => if a = c then r else [a])

/-- `TabSearcher.escapeHtml` from build/README.md: the five replacements
applied left to right, ampersand first. -/
def escapeHtmlL (l : List Char) : List Char :=
  repChar apos "&#x27;".data
    (repChar '"' "&quot;".data
      (repChar '>' "&gt;".data
        (repChar '<' "&lt;".data
          (repChar '&' "&amp;".data l))))

/-- String-level `escapeHtml` (build/README.md variant). -/
def escapeHtml (s : String) : String := ⟨ escapeHtmlL s.data ⟩

/-- The per-character entity map: the net effect claimed for `escapeHtml`. -/
def entChar (c : Char) : List Char :=
  if c = '&' then "&amp;".data
  else if c = '<' then "&lt;".data
  else if c = '>' then "&gt;".data
  else if c = '"' then "&quot;".data
  else if c = apos then "&#x27;".data
  else [c]

/-- A JavaScript value passed to `escapeHtml`: a string, `null` or
`undefined` (the cases exercised by the spec and the unit tests). -/
inductive JSVal where
  | str (s : String)
  | nullV
  | undefV
deriving DecidableEq

/-- `String(text)`: JavaScript string coercion on the modelled values. -/
def jsString : JSVal → String
  | .str s => s
  | .nullV => "null"
  | .undefV => "undefined"

/-- `escapeHtml` on an arbitrary value (build/README.md variant): coerce
with `String(text)` first, then escape. -/
def escapeHtmlJS (v : JSVal) : String := escapeHtml (jsString v)

/-- The popup.js variant of `escapeHtml`, which routes through
`div.textContent` / `div.innerHTML`.  Modelled from the HTML standard's
text-node serialization (an external collaborator of the popup code):
only `&`, `<`, `>` are escaped, and the `textContent` setter converts
`null` to the empty string and `undefined` to the string `undefined`. -/
def escapeHtmlDom (v : JSVal) : String :=
  match v with
  | .str s =>
      ⟨ repChar '>' "&gt;".data
          (repChar '<' "&lt;".data (repChar '&' "&amp;".data s.data)) ⟩
  | .nullV => ""
  | .undefV => "undefined"

theorem repChar_nil (c : Char) (r : List Char) : repChar c r [] = [] := rfl

theorem repChar_cons (c : Char) (r : List Char) (a : Char) (l : List Char) :
    repChar c r (a :: l) = (if a = c then r else [a]) ++ repChar c r l := by
  simp [repChar]

theorem repChar_append (c : Char) (r : List Char) (l₁ l₂ : List Char) :
    repChar c r (l₁ ++ l₂) = repChar c r l₁ ++ repChar c r l₂ := by
  simp [repChar]

theorem escapeHtmlL_append (l₁ l₂ : List Char) :
    escapeHtmlL (l₁ ++ l₂) = escapeHtmlL l₁ ++ escapeHtmlL l₂ := by
  simp [escapeHtmlL, repChar_append]

theorem escapeHtmlL_singleton (a : Char) : escapeHtmlL [a] = entChar a := by
  by_cases h1 : a = '&'
  · subst h1; decide
  by_cases h2 : a = '<'
  · subst h2; decide
  by_cases h3 : a = '>'
  · subst h3; decide
  by_cases h4 : a = '"'
  · subst h4; decide
  by_cases h5 : a = apos
  · subst h5; decide
  simp [escapeHtmlL, repChar, entChar, h1, h2, h3, h4, h5]

/-- The chained replacements act character by character: escaping the
ampersand first means no entity produced by a later substitution is
re-escaped, so `escapeHtml` is exactly the per-character entity map. -/
theorem escapeHtmlL_eq_flatMap (l : List Char) : escapeHtmlL l = l.flatMap entChar := by
  induction l with
  | nil => rfl
  | cons a t ih =>
      have : a :: t = [a] ++ t := rfl
      rw [this, escapeHtmlL_append, escapeHtmlL_singleton, ih]
      simp

/-! ### highlightText

`TabSearcher.highlightText` (popup.js lines 182-192) wraps matches of
`new RegExp(`(${escapedQuery})`, "gi")` in a highlight span via a global
`replace`.  When the escaped query contains no regex syntax character the
pattern is a literal and the replace performs global, leftmost,
non-overlapping, case-insensitive literal substitution; queries whose
escaped form does contain a syntax character are modelled as `none` (for
such queries the `RegExp` construction either throws — e.g. `(` or `c++` —
or stops matching the query literally). -/

/-- The `RegExp` pattern syntax characters `^ $ \ . * + ? ( ) [ ] { } |`,
by code point. -/
def regexSyntaxChar (c : Char) : Bool :=
  c.toNat == 94 || c.toNat == 36 || c.toNat == 92 || c.toNat == 46 ||
  c.toNat == 42 || c.toNat == 43 || c.toNat == 63 || c.toNat == 40 ||
  c.toNat == 41 || c.toNat == 91 || c.toNat == 93 || c.toNat == 123 ||
  c.toNat == 125 || c.toNat == 124

/-- A pattern is safe when it contains no regex syntax character: the
regex then matches the pattern literally. -/
def regexSafe (l : List Char) : Bool := l.all (fun c => !(regexSyntaxChar c))

/-- Opening of the highlight wrapper inserted by the replacement string. -/
def spanOpen : List Char := "<span class=\"highlight\">".data

/-- Closing of the highlight wrapper. -/
def spanClose : List Char := "</span>".data

/-- Global leftmost non-overlapping case-insensitive literal replacement:
each match of `pat` is wrapped in the highlight span, keeping the matched
text's original characters (the `$1` back-reference).  `fuel` bounds the
recursion and is instantiated with the text length, which suffices for a
non-empty pattern. -/
def highlightLoop : Nat → List Char → List Char → List Char
  | _, _, [] => []
  | 0, _, l => l
  | fuel + 1, pat, c :: rest =>
      if ciIsPrefix pat (c :: rest) then
        spanOpen ++ (c :: rest).take pat.length ++ spanClose ++
          highlightLoop fuel pat ((c :: rest).drop pat.length)
      else c :: highlightLoop fuel pat rest

/-- `TabSearcher.highlightText` (popup.js lines 182-192): empty query
returns the escaped text; otherwise the escaped query is matched
case-insensitively against the escaped text and every match is wrapped.
Uses the string-based `escapeHtml`; see `escapeHtmlDom` for the popup.js
escaping divergence, which is orthogonal to the highlighting logic. -/
def highlightText (text query : String) : Option String :=
  if query = "" then some (escapeHtml text)
  else
    let escT := escapeHtml text
    let escQ := escapeHtml query
    if regexSafe escQ.data then
      some ⟨ highlightLoop escT.data.length escQ.data escT.data ⟩
    else none

/-! ### Data model -/

/-- A tab record as kept by `TabSearcher` after `loadTabs` mapping. -/
structure Tab where
  id : Int
  title : String
  url : String
  favIconUrl : Option String
  windowId : Int
  active : Bool
  pinned : Bool
deriving DecidableEq

/-- A raw host tab record as returned by `chrome.tabs.query`; `title` and
`url` may be absent. -/
structure RawTab where
  id : Int
  title : Option String
  url : Option String
  favIconUrl : Option String
  windowId : Int
  active : Bool
  pinned : Bool
deriving DecidableEq

/-- JavaScript `v || d` on an optional string: the default is taken when
the value is absent or empty (the empty string is falsy). -/
def jsOr (v : Option String) (d : String) : String :=
  match v with
  | none => d
  | some s => if s = "" then d else s

/-- The `tabs.map(tab => ({...}))` record mapping in `loadTabs`
(popup.js lines 67-75). -/
def toTab (r : RawTab) : Tab :=
  { id := r.id
    title := jsOr r.title "Untitled"
    url := jsOr r.url ""
    favIconUrl := r.favIconUrl
    windowId := r.windowId
    active := r.active
    pinned := r.pinned }

/-! ### filterTabs -/

/-- The filtering core of `TabSearcher.filterTabs` (popup.js lines 87-101)
after the query has been lowercased and trimmed: empty query keeps all
tabs, otherwise a tab is kept when its lowercased title or url contains
the query as a substring. -/
def filterQuery (tabs : List Tab) (query : String) : List Tab :=
  if query = "" then tabs
  else
    tabs.filter (fun t =>
      hasInfix query.data (jsToLower t.title).data ||
      hasInfix query.data (jsToLower t.url).data)

/-- `TabSearcher.filterTabs` (popup.js): the search-input value is
lowercased, then trimmed, then filtered on. -/
def filterTabs (tabs : List Tab) (raw : String) : List Tab :=
  filterQuery tabs (jsTrim (jsToLower raw))

/-! ### Exact-match mode (build/README.md variant, lines 465-496) -/

/-- Word-character-ness of an optional character; absent (string edge)
counts as non-word. -/
def optWord : Option Char → Bool
  | none => false
  | some c => isWordChar c

/-- A `\b` word-boundary between two adjacent positions: exactly one side
is a word character (string edges are non-word). -/
def wordBoundary (a b : Option Char) : Bool := optWord a != optWord b

/-- Scan for a match of `\b<pat>\b` (with `pat` a literal, flag `i`):
at each position, the pattern must match case-insensitively and a word
boundary must hold both before the first matched character and after the
last one.  `prev` is the character preceding the current position. -/
def exactScan (pat : List Char) : Option Char → List Char → Bool
  | _, [] => false
  | prev, c :: rest =>
      (ciIsPrefix pat (c :: rest) && wordBoundary prev (some c) &&
        wordBoundary (((c :: rest).take pat.length).getLast?)
          (((c :: rest).drop pat.length).head?)) ||
      exactScan pat (some c) rest

/-- `wordRegex.test(s)` for `wordRegex = new RegExp("\\b" +
escapeRegExp(query) + "\\b", "i")` (build/README.md lines 477-478,
489-496; `escapeRegExp` makes the query literal). -/
def exactTest (s q : String) : Bool := exactScan q.data none s.data

/-- The build/README.md `filterTabs` core on a lowercased trimmed query,
with the exact-match mode flag. -/
def filterQueryBuild (tabs : List Tab) (query : String) (exact : Bool) : List Tab :=
  if query = "" then tabs
  else
    tabs.filter (fun t =>
      if exact then exactTest t.title query || exactTest t.url query
      else
        hasInfix query.data (jsToLower t.title).data ||
        hasInfix query.data (jsToLower t.url).data)

/-- The build/README.md `filterTabs`: lowercase, trim, then filter. -/
def filterTabsBuild (tabs : List Tab) (raw : String) (exact : Bool) : List Tab :=
  filterQueryBuild tabs (jsTrim (jsToLower raw)) exact

/-! ### Claim-side predicates (stated from the spec's words, for
comparison against the code models) -/

/-- Spec wording: `s` contains `q` case-insensitively (both sides case
folded, substring containment). -/
def ciContains (s q : String) : Bool :=
  hasInfix (jsToLower q).data (jsToLower s).data

/-- Spec wording for exact mode: `s` contains `q` as a whole word bounded
by non-word characters (or the string edges), case-insensitively. -/
def wholeWordScan (pat : List Char) : Option Char → List Char → Bool
  | _, [] => false
  | prev, c :: rest =>
      (ciIsPrefix pat (c :: rest) && !(optWord prev) &&
        !(optWord (((c :: rest).drop pat.length).head?))) ||
      wholeWordScan pat (some c) rest

/-- String-level whole-word containment, from the claim's words. -/
def containsWholeWord (s q : String) : Bool := wholeWordScan q.data none s.data

/-! ### Tab actions -/

/-- `TabSearcher.closeTab` (popup.js lines 223-235).  The host call
`chrome.tabs.remove(tabId)` is modelled by its Boolean outcome: on
success both local arrays are filtered; on failure the catch block leaves
them untouched.  Returns the new `(tabs, filteredTabs)`. -/
def closeTab (tabs filteredTabs : List Tab) (tabId : Int) (hostOk : Bool) :
    List Tab × List Tab :=
  if hostOk then
    (tabs.filter (fun t => t.id != tabId),
      filteredTabs.filter (fun t => t.id != tabId))
  else (tabs, filteredTabs)

/-- `TabSearcher.closeOtherTabs` (popup.js lines 237-255).  Returns the
id list passed to the single `chrome.tabs.remove` host call, or `none`
when no host close call is made (user declined, or the computed close-set
is empty).  `confirmed` is the result of the confirmation dialog. -/
def closeOtherTabs (tabs : List Tab) (currentTabId : Option Int)
    (confirmed : Bool) : Option (List Int) :=
  if !confirmed then none
  else
    let tabsToClose :=
      (tabs.filter (fun t => ((some t.id) != currentTabId) && !t.pinned)).map
        (fun t => t.id)
    if tabsToClose.length > 0 then some tabsToClose else none

/-- `TabSearcher.closeOtherTabs` as shipped in build/README.md
(lines 650-668): identical, except that the host call is additionally
gated on `this.currentTabId !== null`. -/
def closeOtherTabsGuarded (tabs : List Tab) (currentTabId : Option Int)
    (confirmed : Bool) : Option (List Int) :=
  if !confirmed then none
  else
    let tabsToClose :=
      (tabs.filter (fun t => ((some t.id) != currentTabId) && !t.pinned)).map
        (fun t => t.id)
    if tabsToClose.length > 0 && currentTabId.isSome then some tabsToClose
    else none

/-! ### loadTabs -/

/-- The popup state touched by `loadTabs`: the two tab lists, the active
tab marker, the loading indicator and the inline error panel. -/
structure PopupState where
  tabs : List Tab
  filteredTabs : List Tab
  currentTabId : Option Int
  loading : Bool
  errorShown : Bool
deriving DecidableEq

/-- `TabSearcher.loadTabs` (popup.js lines 53-85).  The two awaited host
queries are modelled by their combined outcome: `Except.error` when either
`chrome.tabs.query` call rejects (the catch path: log, show the error
panel, leave the tab lists at their prior value), `Except.ok (raws,
active)` when both resolve (map the records, reset `filteredTabs` to a
copy of the full list, re-render clearing any error panel).  The
`finally` block clears the loading indicator on both paths. -/
def loadTabs (s : PopupState)
    (host : Except String (List RawTab × Option RawTab)) : PopupState :=
  match host with
  | .error _ => { s with loading := false, errorShown := true }
  | .ok (raws, activeTab) =>
      { s with
        currentTabId := activeTab.map (fun a => a.id)
        tabs := raws.map toTab
        filteredTabs := raws.map toTab
        loading := false
        errorShown := false }

/-! ### Keyboard navigation (popup.js lines 257-292)

The selection index over the rendered list: `-1` when no item has the
`keyboard-active` class, otherwise the item's index.  `n` is the length of
the rendered list. -/

/-- `ArrowDown`: `Math.min(currentIndex + 1, tabItems.length - 1)`. -/
def arrowDownIdx (i : Int) (n : Nat) : Int := min (i + 1) ((n : Int) - 1)

/-- `ArrowUp`: `Math.max(currentIndex - 1, 0)`. -/
def arrowUpIdx (i : Int) : Int := max (i - 1) 0

/-- The index reached after `k` ArrowDown presses on a list of length
`n`, starting from no-selection (`-1`). -/
def downIter (n : Nat) : Nat → Int
  | 0 => -1
  | k + 1 => arrowDownIdx (downIter n k) n

/-! ### String-level helper lemmas -/

theorem jsWs_comp_toLower : jsWs ∘ Char.toLower = jsWs := by
  funext c
  exact jsWs_toLower c

/-- Trimming commutes with lowercasing. -/
theorem trimL_map_toLower (l : List Char) :
    trimL (l.map Char.toLower) = (trimL l).map Char.toLower := by
  unfold trimL
  rw [List.dropWhile_map, jsWs_comp_toLower, ← List.map_reverse,
    List.dropWhile_map, jsWs_comp_toLower, ← List.map_reverse]

theorem map_toLower_toLower (l : List Char) :
    (l.map Char.toLower).map Char.toLower = l.map Char.toLower := by
  rw [List.map_map]
  apply List.map_congr_left
  intro a _
  exact toLower_toLower a

/-- The query computed by `filterTabs` is already lowercased: lowering it
again is the identity. -/
theorem jsToLower_jsTrim_jsToLower (s : String) :
    jsToLower (jsTrim (jsToLower s)) = jsTrim (jsToLower s) := by
  show (⟨ (trimL (s.data.map Char.toLower)).map Char.toLower ⟩ : String) = _
  rw [← trimL_map_toLower, map_toLower_toLower]
  rfl

theorem jsToLower_jsToUpper (s : String) :
    jsToLower (jsToUpper s) = jsToLower s := by
  show (⟨ (s.data.map Char.toUpper).map Char.toLower ⟩ : String) = _
  rw [List.map_map]
  have : Char.toLower ∘ Char.toUpper = Char.toLower := by
    funext c
    exact toLower_toUpper c
  rw [this]
  rfl

theorem jsToLower_jsToLower (s : String) :
    jsToLower (jsToLower s) = jsToLower s := by
  show (⟨ (s.data.map Char.toLower).map Char.toLower ⟩ : String) = _
  rw [map_toLower_toLower]
  rfl

/-- A sample tab record for concrete instantiations. -/
def demoTab (i : Int) (t u : String) (p : Bool) : Tab :=
  { id := i, title := t, url := u, favIconUrl := none, windowId := 1,
    active := false, pinned := p }

/-- On a non-empty (after lowering and trimming) query, `filterTabs` is
the filter by the spec-side case-insensitive containment predicate. -/
theorem filterTabs_eq_filter (tabs : List Tab) (raw : String)
    (h : jsTrim (jsToLower raw) ≠ "") :
    filterTabs tabs raw =
      tabs.filter (fun t =>
        ciContains t.title (jsTrim (jsToLower raw)) ||
        ciContains t.url (jsTrim (jsToLower raw))) := by
  unfold filterTabs filterQuery
  rw [if_neg h]
  apply List.filter_congr
  intro t _
  unfold ciContains
  rw [jsToLower_jsTrim_jsToLower]

/-- Claim C4: the substring-mode filter keeps exactly the tabs whose
title or url contains the (trimmed) query case-insensitively, as an
order-preserving subsequence; an empty or whitespace-only query returns
the whole list, and a query matching no tab returns the empty list. -/
theorem filterTabs_substring_spec (tabs : List Tab) (raw : String) :
    (jsTrim (jsToLower raw) = "" → filterTabs tabs raw = tabs) ∧
    List.Sublist (filterTabs tabs raw) tabs ∧
    (jsTrim (jsToLower raw) ≠ "" →
      filterTabs tabs raw =
        tabs.filter (fun t =>
          ciContains t.title (jsTrim (jsToLower raw)) ||
          ciContains t.url (jsTrim (jsToLower raw)))) ∧
    ((∀ t ∈ tabs, ciContains t.title (jsTrim (jsToLower raw)) = false ∧
        ciContains t.url (jsTrim (jsToLower raw)) = false) →
      jsTrim (jsToLower raw) ≠ "" → filterTabs tabs raw = []) := by
  refine ⟨?_, ?_, filterTabs_eq_filter tabs raw, ?_⟩
  · intro h
    unfold filterTabs filterQuery
    rw [if_pos h]
  · unfold filterTabs filterQuery
    by_cases h : jsTrim (jsToLower raw) = ""
    · rw [if_pos h]
    · rw [if_neg h]
      exact List.filter_sublist tabs
  · intro hall hne
    rw [filterTabs_eq_filter tabs raw hne]
    apply List.filter_eq_nil_iff.mpr
    intro t ht
    simp [(hall t ht).1, (hall t ht).2]

theorem filterTabs_substring_spec_witness :
    filterTabs [demoTab 1 ( "Hello World" ) ( "https://example.com" ) false]
        ( "   " ) =
      [demoTab 1 ( "Hello World" ) ( "https://example.com" ) false] ∧
    filterTabs [demoTab 1 ( "Hello World" ) ( "https://example.com" ) false]
        ( "zzz" ) = [] :=
  ⟨(filterTabs_substring_spec _ _).1 (by decide),
   (filterTabs_substring_spec _ _).2.2.2 (by decide) (by decide)⟩

/-- Claim C9: filtering is invariant under changing the case of the
query. -/
theorem filterTabs_case_insensitive (tabs : List Tab) (q : String) :
    filterTabs tabs (jsToUpper q) = filterTabs tabs q ∧
    filterTabs tabs (jsToLower q) = filterTabs tabs q := by
  constructor
  · unfold filterTabs
    rw [jsToLower_jsToUpper]
  · unfold filterTabs
    rw [jsToLower_jsToLower]

/-- Claim C5: on host success `closeTab` removes exactly the tabs bearing
the closed id from both lists, preserving the others and their order; on
host failure both lists are exactly unchanged. -/
theorem closeTab_spec (tabs filteredTabs : List Tab) (i : Int) :
    closeTab tabs filteredTabs i false = (tabs, filteredTabs) ∧
    List.Sublist (closeTab tabs filteredTabs i true).1 tabs ∧
    List.Sublist (closeTab tabs filteredTabs i true).2 filteredTabs ∧
    (∀ t ∈ (closeTab tabs filteredTabs i true).1, t.id ≠ i) ∧
    (∀ t ∈ (closeTab tabs filteredTabs i true).2, t.id ≠ i) ∧
    (∀ t ∈ tabs, t.id ≠ i → t ∈ (closeTab tabs filteredTabs i true).1) ∧
    (∀ t ∈ filteredTabs, t.id ≠ i → t ∈ (closeTab tabs filteredTabs i true).2) := by
  refine ⟨rfl, ?_, ?_, ?_, ?_, ?_, ?_⟩
  · show List.Sublist (tabs.filter (fun t => t.id != i)) tabs
    exact List.filter_sublist tabs
  · show List.Sublist (filteredTabs.filter (fun t => t.id != i)) filteredTabs
    exact List.filter_sublist filteredTabs
  · intro t ht
    have : t ∈ tabs.filter (fun t => t.id != i) := ht
    simp [List.mem_filter] at this
    exact this.2
  · intro t ht
    have : t ∈ filteredTabs.filter (fun t => t.id != i) := ht
    simp [List.mem_filter] at this
    exact this.2
  · intro t ht hne
    show t ∈ tabs.filter (fun t => t.id != i)
    simp [List.mem_filter]
    exact ⟨ht, hne⟩
  · intro t ht hne
    show t ∈ filteredTabs.filter (fun t => t.id != i)
    simp [List.mem_filter]
    exact ⟨ht, hne⟩

theorem closeTab_spec_witness :
    closeTab [demoTab 1 ( "a" ) ( "u" ) false] [demoTab 1 ( "a" ) ( "u" ) false] 9
        false =
      ([demoTab 1 ( "a" ) ( "u" ) false], [demoTab 1 ( "a" ) ( "u" ) false]) ∧
    demoTab 1 ( "a" ) ( "u" ) false ∈
      (closeTab [demoTab 1 ( "a" ) ( "u" ) false]
        [demoTab 1 ( "a" ) ( "u" ) false] 9 true).1 :=
  ⟨(closeTab_spec _ _ _).1,
   (closeTab_spec _ _ _).2.2.2.2.2.1 _ (by decide) (by decide)⟩

/-- Claim C6: a failed refresh is caught: the tab lists keep their prior
value, the error panel is shown, and the loading indicator ends cleared
on the failure path as well as on every path. -/
theorem loadTabs_spec (s : PopupState) (e : String)
    (r : Except String (List RawTab × Option RawTab)) :
    (loadTabs s (Except.error e)).tabs = s.tabs ∧
    (loadTabs s (Except.error e)).filteredTabs = s.filteredTabs ∧
    (loadTabs s (Except.error e)).currentTabId = s.currentTabId ∧
    (loadTabs s (Except.error e)).errorShown = true ∧
    (loadTabs s (Except.error e)).loading = false ∧
    (loadTabs s r).loading = false := by
  refine ⟨rfl, rfl, rfl, rfl, rfl, ?_⟩
  cases r with
  | error e2 => rfl
  | ok p =>
      obtain ⟨a, b⟩ := p
      rfl

theorem downIter_min (L : Nat) (hL : 1 ≤ L) :
    ∀ N : Nat, 1 ≤ N → downIter L N = min ((N : Int) - 1) ((L : Int) - 1) := by
  intro N
  induction N with
  | zero => intro h; exact absurd h (by omega)
  | succ k ih =>
      intro _
      by_cases hk : 1 ≤ k
      · have hkk := ih hk
        show arrowDownIdx (downIter L k) L = _
        rw [hkk]
        unfold arrowDownIdx
        simp only [Int.min_def]
        split_ifs <;> omega
      · have hk0 : k = 0 := by omega
        subst hk0
        show arrowDownIdx (downIter L 0) L = _
        unfold downIter arrowDownIdx
        simp only [Int.min_def]
        split_ifs <;> omega

/-- Claim C7: ArrowDown maps `i` to `min(i+1, N-1)` (so `-1` goes to `0`
and the last index is a fixed point), ArrowUp maps `i` to `max(i-1, 0)`
(so one ArrowUp from no-selection lands on `0`), and `N` ArrowDown
presses from no-selection on a list of length `L ≥ 1` reach
`min(N-1, L-1)`. -/
theorem handleKeyNavigation_spec (N L : Nat) (hN : 1 ≤ N) (hL : 1 ≤ L) :
    arrowDownIdx (-1) L = 0 ∧
    (∀ i : Int, arrowDownIdx i L = min (i + 1) ((L : Int) - 1)) ∧
    (∀ i : Int, arrowUpIdx i = max (i - 1) 0) ∧
    arrowUpIdx (-1) = 0 ∧
    arrowDownIdx ((L : Int) - 1) L = (L : Int) - 1 ∧
    downIter L N = min ((N : Int) - 1) ((L : Int) - 1) := by
  refine ⟨?_, fun i => rfl, fun i => rfl, by decide, ?_, downIter_min L hL N hN⟩
  · unfold arrowDownIdx
    simp only [Int.min_def]
    split_ifs <;> omega
  · unfold arrowDownIdx
    simp only [Int.min_def]
    split_ifs <;> omega

theorem handleKeyNavigation_spec_witness :
    downIter 2 3 = 1 ∧ arrowUpIdx (-1) = 0 := by
  constructor
  · have h := (handleKeyNavigation_spec 3 2 (by decide) (by decide)).2.2.2.2.2
    rw [h]
    decide
  · exact (handleKeyNavigation_spec 3 2 (by decide) (by decide)).2.2.2.1

/-- Claim C1: evaluation of `closeOtherTabs` at the decisive inputs.  The
popup.js implementation, with `currentTabId = null` and a confirmed
dialog, requests host removal of every non-pinned tab (`some [1]`) —
the claim (and the build/README.md variant, the spec and the unit test
"should handle no current tab") require zero host close calls there.
The remaining conjuncts check the parts of the claim that popup.js does
satisfy: pinned tabs and the current tab are excluded, an empty close-set
issues no host call, and a declined confirmation issues no host call. -/
theorem closeOtherTabs_requests :
    closeOtherTabs [demoTab 1 ( "t1" ) ( "u1" ) false] none true = some [1] ∧
    closeOtherTabsGuarded [demoTab 1 ( "t1" ) ( "u1" ) false] none true = none ∧
    closeOtherTabs
      [demoTab 1 ( "" ) ( "" ) true, demoTab 2 ( "" ) ( "" ) false,
        demoTab 3 ( "" ) ( "" ) false, demoTab 4 ( "" ) ( "" ) true,
        demoTab 5 ( "" ) ( "" ) false] (some 3) true = some [2, 5] ∧
    closeOtherTabs [demoTab 3 ( "" ) ( "" ) false] (some 3) true = none ∧
    closeOtherTabs [demoTab 1 ( "" ) ( "" ) false] (some 3) false = none := by
  decide

/-- The five escapable characters, as a single input string. -/
def fiveSpecials : String := ⟨ "&<>\"".data ++ [apos] ⟩

/-- Their entity-escaped form. -/
def fiveEntities : String := "&amp;&lt;&gt;&quot;&#x27;"

/-- What the DOM-based popup.js `escapeHtml` produces on `fiveSpecials`:
the quote characters pass through unescaped. -/
def domEscaped : String := ⟨ "&amp;&lt;&gt;\"".data ++ [apos] ⟩

/-- Claim C2: the build/README.md `escapeHtml` maps each of the five
characters to its entity (the left-to-right chain with ampersand first
collapses to the per-character entity map) and coerces null/undefined to
the literal strings; the DOM-based popup.js variant diverges on quotes
and on null, which is the recorded code bug. -/
theorem escapeHtml_entity_spec :
    (∀ s : String, (escapeHtml s).data = s.data.flatMap entChar) ∧
    escapeHtml ( "<x>" ) = "&lt;x&gt;" ∧
    escapeHtml ( "A & B" ) = "A &amp; B" ∧
    escapeHtml fiveSpecials = fiveEntities ∧
    escapeHtmlJS JSVal.nullV = "null" ∧
    escapeHtmlJS JSVal.undefV = "undefined" ∧
    escapeHtmlDom (JSVal.str fiveSpecials) = domEscaped ∧
    escapeHtmlDom (JSVal.str fiveSpecials) ≠ escapeHtml fiveSpecials ∧
    escapeHtmlDom JSVal.nullV = "" := by
  refine ⟨?_, by decide, by decide, by decide, by decide, by decide,
    by decide, by decide, by decide⟩
  intro s
  exact escapeHtmlL_eq_flatMap s.data

theorem highlightLoop_nil (fuel : Nat) (pat : List Char) :
    highlightLoop fuel pat [] = [] := by
  cases fuel <;> rfl

/-- Claim C3 counterexample: on the non-empty query `(` the claimed
return value would be the escaped text unchanged (no occurrence to
wrap), but `highlightText` does not return a string at all — the
`RegExp` construction throws. -/
theorem highlightText_unsafe_query_cex :
    highlightText ( "x" ) ( "(" ) = none ∧
    highlightText ( "x" ) ( "(" ) ≠ some (escapeHtml ( "x" )) ∧
    ( "(" : String) ≠ "" := by
  decide

/-- Claim C3 (amended to queries whose escaped form contains no regex
syntax character, where the constructed pattern matches the query
literally): the empty query returns the escaped text unchanged, empty
text yields the empty string, and every case-insensitive occurrence is
wrapped globally with the matched text's original case preserved. -/
theorem highlightText_spec (text q : String) (hq : q ≠ "")
    (hsafe : regexSafe (escapeHtml q).data = true) :
    highlightText text "" = some (escapeHtml text) ∧
    highlightText "" q = some "" ∧
    highlightText ( "Hello World" ) ( "world" ) =
      some ( "Hello <span class=\"highlight\">World</span>" ) ∧
    highlightText ( "Go go GO" ) ( "go" ) =
      some ( "<span class=\"highlight\">Go</span> <span class=\"highlight\">go</span> <span class=\"highlight\">GO</span>" ) := by
  refine ⟨?_, ?_, by decide, by decide⟩
  · unfold highlightText
    rw [if_pos rfl]
  · unfold highlightText
    rw [if_neg hq]
    show (if regexSafe (escapeHtml q).data then
        some ⟨ highlightLoop (escapeHtml "").data.length (escapeHtml q).data
          (escapeHtml "").data ⟩
      else none) = some ""
    rw [if_pos hsafe]
    show some ⟨ highlightLoop 0 (escapeHtml q).data [] ⟩ = some ""
    rw [highlightLoop_nil]

theorem highlightText_spec_witness :
    highlightText "" ( "b" ) = some "" :=
  (highlightText_spec ( "abc" ) ( "b" ) (by decide) (by decide)).2.1

/-- Claim C10: `highlightText` is not total over all string queries: the
query is interpolated into the `RegExp` without metacharacter escaping,
so e.g. the queries `c++` and `(` make the construction throw (modelled
as `none`), while an ordinary query still returns a string. -/
theorem highlightText_not_total :
    highlightText ( "abc" ) ( "c++" ) = none ∧
    highlightText ( "(a)" ) ( "(" ) = none ∧
    highlightText ( "abc" ) ( "b" ) ≠ none := by
  decide

/-! ### Exact-match mode: `\b` boundaries versus "bounded by non-word
characters" -/

theorem isWordChar_ci {p c : Char} (h : p.toLower = c.toLower) :
    isWordChar p = isWordChar c := by
  rw [← isWordChar_toLower p, h, isWordChar_toLower]

/-- If a pattern starting with a word character matches at a position,
the first matched text character is a word character. -/
theorem ciIsPrefix_head_word {pat : List Char} (hh : optWord pat.head? = true)
    {c : Char} {rest : List Char} (hp : ciIsPrefix pat (c :: rest) = true) :
    isWordChar c = true := by
  cases pat with
  | nil => simp [optWord] at hh
  | cons p ps =>
      have h1 : p.toLower = c.toLower := by
        simp [ciIsPrefix] at hp
        exact hp.1
      have h2 : isWordChar p = true := by simpa [optWord] using hh
      rw [← isWordChar_ci h1]
      exact h2

/-- If a pattern ending in a word character matches at a position, the
last matched text character is a word character. -/
theorem optWord_take_getLast :
    ∀ (pat : List Char), pat ≠ [] → optWord pat.getLast? = true →
      ∀ l, ciIsPrefix pat l = true →
        optWord ((l.take pat.length).getLast?) = true := by
  intro pat
  induction pat with
  | nil => intro h; exact absurd rfl h
  | cons p ps ih =>
      intro _ hlast l hp
      cases ps with
      | nil =>
          cases l with
          | nil => simp [ciIsPrefix] at hp
          | cons c rest =>
              have h1 : p.toLower = c.toLower := by
                simp [ciIsPrefix] at hp
                exact hp
              have h2 : isWordChar p = true := by
                simpa [optWord] using hlast
              simp only [List.length_cons, List.length_nil, List.take_succ_cons,
                List.take_zero, List.getLast?_singleton]
              rw [optWord, ← isWordChar_ci h1]
              exact h2
      | cons q ps2 =>
          cases l with
          | nil => simp [ciIsPrefix] at hp
          | cons c rest =>
              have hp2 : ciIsPrefix (q :: ps2) rest = true := by
                simp [ciIsPrefix] at hp
                exact hp.2
              cases rest with
              | nil => simp [ciIsPrefix] at hp2
              | cons r rest2 =>
                  have hlast2 : optWord (q :: ps2).getLast? = true := by
                    simpa [List.getLast?_cons_cons] using hlast
                  have ihh := ih (by simp) hlast2 (r :: rest2) hp2
                  simp only [List.length_cons, List.take_succ_cons,
                    List.getLast?_cons_cons]
                  simpa [List.length_cons, List.take_succ_cons] using ihh

/-- For a non-empty pattern whose first and last characters are word
characters, the code's `\b`-boundary scan coincides with the spec's
"bounded by non-word characters (or the string edges)" scan. -/
theorem exactScan_eq_wholeWordScan (pat : List Char) (hne : pat ≠ [])
    (hh : optWord pat.head? = true) (hl : optWord pat.getLast? = true) :
    ∀ (prev : Option Char) (l : List Char),
      exactScan pat prev l = wholeWordScan pat prev l := by
  intro prev l
  induction l generalizing prev with
  | nil => rfl
  | cons c rest ih =>
      show ((ciIsPrefix pat (c :: rest) && wordBoundary prev (some c) &&
          wordBoundary (((c :: rest).take pat.length).getLast?)
            (((c :: rest).drop pat.length).head?)) ||
        exactScan pat (some c) rest) =
        ((ciIsPrefix pat (c :: rest) && !(optWord prev) &&
          !(optWord (((c :: rest).drop pat.length).head?))) ||
        wholeWordScan pat (some c) rest)
      rw [ih]
      by_cases hp : ciIsPrefix pat (c :: rest) = true
      · have hcw : isWordChar c = true := ciIsPrefix_head_word hh hp
        have htake : optWord (((c :: rest).take pat.length).getLast?) = true :=
          optWord_take_getLast pat hne hl _ hp
        simp only [wordBoundary, hp, htake]
        rw [show optWord (some c) = true from hcw]
        cases optWord prev <;>
          cases optWord (((c :: rest).drop pat.length).head?) <;> rfl
      · have hp2 : ciIsPrefix pat (c :: rest) = false := by
          exact Bool.not_eq_true _ ▸ eq_false_of_ne_true hp
        rw [hp2]
        simp

theorem exactTest_eq_containsWholeWord (s q : String) (hne : q.data ≠ [])
    (hh : optWord q.data.head? = true) (hl : optWord q.data.getLast? = true) :
    exactTest s q = containsWholeWord s q :=
  exactScan_eq_wholeWordScan q.data hne hh hl none s.data

/-- Claim C8 counterexample: the tab titled `use c++ daily` contains the
query `c++` as a whole word bounded by non-word characters (spaces), yet
the exact-match filter drops it — the trailing `\b` after the non-word
character `+` requires a following word character, so the regex does not
match there. -/
theorem filterTabsBuild_exact_cex :
    filterTabsBuild [demoTab 7 ( "use c++ daily" ) ( "" ) false] ( "c++" )
        true = [] ∧
    containsWholeWord ( "use c++ daily" ) ( "c++" ) = true ∧
    jsTrim (jsToLower ( "c++" )) = "c++" := by
  decide

/-- Claim C8 (amended to queries whose first and last characters are word
characters, where `\b` means exactly "adjacent to a non-word character or
a string edge"): the exact-match filter returns exactly the tabs whose
title or url contains the trimmed lowercased query as a whole word,
case-insensitively. -/
theorem filterTabsBuild_exact_spec (tabs : List Tab) (raw : String)
    (hne : (jsTrim (jsToLower raw)).data ≠ [])
    (hh : optWord (jsTrim (jsToLower raw)).data.head? = true)
    (hl : optWord (jsTrim (jsToLower raw)).data.getLast? = true) :
    filterTabsBuild tabs raw true =
      tabs.filter (fun t =>
        containsWholeWord t.title (jsTrim (jsToLower raw)) ||
        containsWholeWord t.url (jsTrim (jsToLower raw))) := by
  have hs : jsTrim (jsToLower raw) ≠ "" := by
    intro h
    apply hne
    rw [h]
  unfold filterTabsBuild filterQueryBuild
  rw [if_neg hs]
  apply List.filter_congr
  intro t _
  rw [exactTest_eq_containsWholeWord t.title _ hne hh hl,
    exactTest_eq_containsWholeWord t.url _ hne hh hl]
  rfl

theorem filterTabsBuild_exact_spec_witness :
    filterTabsBuild [demoTab 1 ( "The Cat sat" ) ( "" ) false] ( "cat" )
        true = [demoTab 1 ( "The Cat sat" ) ( "" ) false] := by
  have h := filterTabsBuild_exact_spec
    [demoTab 1 ( "The Cat sat" ) ( "" ) false] ( "cat" )
    (by decide) (by decide) (by decide)
  rw [h]
  decide

end TabSearch
